import Mathlib

/-!
Verification of the mesh-section codec in
src/Source/UnrealSandboxTerrain/Public/ProcMeshData.h.

Modelling conventions, stated once here:

- The codec never computes with the floating point values it moves: it copies
  them field by field, and the bounding box update only takes componentwise
  min and max.  We therefore model both float and int32 scalars as exact
  integers (abbrev Scalar := Int); every theorem about copying and ordering
  transfers verbatim, NaN behaviour is not modelled and is not claimed.
- FBufferArchive and FMemoryReader write and read 4 bytes per scalar, so the
  byte stream is modelled at scalar granularity as a List Scalar; truncation
  points at field boundaries are representable, which is all the spec uses.
- FMemoryReader::Serialize (engine code) copies the next bytes and advances
  when enough bytes remain, and otherwise sets the archive error flag ArIsError
  and leaves the destination untouched; once the flag is set every later read
  is a no-op.  We model the reader by its remaining stream plus the flag.  A
  destination left untouched is an uninitialized local in DeserializeMesh, so
  its value is indeterminate; the model returns 0 there, and no theorem below
  depends on that junk value beyond its existence.
-/

namespace UnrealSandboxTerrain

/-- Scalar value carried by the stream: a C++ float or int32, modelled exactly. -/
abbrev Scalar := Int

/-- FVector: the three position components (float X, Y, Z). -/
structure FVector where
  X : Scalar
  Y : Scalar
  Z : Scalar
deriving DecidableEq

/-- FVector::ZeroVector. -/
def FVector.zero : FVector := ⟨0, 0, 0⟩

/-- FBox: axis-aligned box with min corner, max corner and the IsValid flag. -/
structure FBox where
  Min : FVector
  Max : FVector
  IsValid : Bool
deriving DecidableEq

/-- FBox(EForceInit::ForceInitToZero): both corners zero, IsValid = 0. -/
def FBox.forceInitToZero : FBox := ⟨FVector.zero, FVector.zero, false⟩

/-- FBox::Init(): both corners zero, IsValid = 0. -/
def FBox.emptyInit : FBox := ⟨FVector.zero, FVector.zero, false⟩

/-- FBox::operator+=(const FVector&): extend the box to contain the point;
an invalid box becomes the degenerate box at the point. -/
def FBox.addPoint (b : FBox) (p : FVector) : FBox :=
  if b.IsValid then
    ⟨⟨min b.Min.X p.X, min b.Min.Y p.Y, min b.Min.Z p.Z⟩,
     ⟨max b.Max.X p.X, max b.Max.Y p.Y, max b.Max.Z p.Z⟩,
     true⟩
  else
    ⟨p, p, true⟩

/-- FProcMeshVertex: position (3 floats), normal (3 floats), material index (int32). -/
structure FProcMeshVertex where
  PositionX : Scalar
  PositionY : Scalar
  PositionZ : Scalar
  NormalX : Scalar
  NormalY : Scalar
  NormalZ : Scalar
  MatIdx : Scalar
deriving DecidableEq

/-- The FVector built from the position fields, as in AddVertex. -/
def FProcMeshVertex.pos (v : FProcMeshVertex) : FVector :=
  ⟨v.PositionX, v.PositionY, v.PositionZ⟩

/-- FProcMeshSection: vertex buffer, index buffer, local bounding box. -/
structure FProcMeshSection where
  ProcVertexBuffer : List FProcMeshVertex
  ProcIndexBuffer : List Scalar
  SectionLocalBox : FBox
deriving DecidableEq

/-- The FProcMeshSection() constructor: empty buffers,
SectionLocalBox(EForceInit::ForceInitToZero). -/
def FProcMeshSection.fresh : FProcMeshSection :=
  ⟨[], [], FBox.forceInitToZero⟩

/-- FProcMeshSection::Reset: empty both buffers, SectionLocalBox.Init(). -/
def FProcMeshSection.Reset (_ : FProcMeshSection) : FProcMeshSection :=
  ⟨[], [], FBox.emptyInit⟩

/-- FProcMeshSection::AddVertex: append to the vertex buffer and extend the box
by the position of the vertex. -/
def FProcMeshSection.AddVertex (s : FProcMeshSection) (v : FProcMeshVertex) :
    FProcMeshSection :=
  { s with
    ProcVertexBuffer := s.ProcVertexBuffer ++ [v]
    SectionLocalBox := s.SectionLocalBox.addPoint v.pos }

/-- Appending one index to ProcIndexBuffer (ProcIndexBuffer.Add in callers and
in DeserializeMesh). -/
def FProcMeshSection.AddIndex (s : FProcMeshSection) (i : Scalar) :
    FProcMeshSection :=
  { s with ProcIndexBuffer := s.ProcIndexBuffer ++ [i] }

/-- One mutation step of a section under construction: an AddVertex call or an
index append.  The spec quantifies over arbitrary sequences of these. -/
inductive BuildOp where
  | addV (v : FProcMeshVertex)
  | addI (i : Scalar)
deriving DecidableEq

/-- Apply one build operation. -/
def applyOp (s : FProcMeshSection) : BuildOp → FProcMeshSection
  | .addV v => s.AddVertex v
  | .addI i => s.AddIndex i

/-- The section built from a fresh one by a sequence of AddVertex calls and
index appends. -/
def buildSection (ops : List BuildOp) : FProcMeshSection :=
  ops.foldl applyOp FProcMeshSection.fresh

/-- The vertices inserted by a build sequence, in order. -/
def vertsOf : List BuildOp → List FProcMeshVertex
  | [] => []
  | .addV v :: t => v :: vertsOf t
  | .addI _ :: t => vertsOf t

/-- The indices appended by a build sequence, in order. -/
def indsOf : List BuildOp → List Scalar
  | [] => []
  | .addV _ :: t => indsOf t
  | .addI i :: t => i :: indsOf t

/-- The box obtained by replaying a list of vertices through AddVertex starting
from the constructor state. -/
def boxOfVerts (vs : List FProcMeshVertex) : FBox :=
  (vs.map FProcMeshVertex.pos).foldl FBox.addPoint FBox.forceInitToZero

/-- The seven scalar fields of one vertex in the order SerializeMesh writes
them: PosX, PosY, PosZ, NormalX, NormalY, NormalZ, MatIdx. -/
def serializeVertex (v : FProcMeshVertex) : List Scalar :=
  [v.PositionX, v.PositionY, v.PositionZ,
   v.NormalX, v.NormalY, v.NormalZ,
   v.MatIdx]

/-- The concatenated per-vertex fields of a whole vertex buffer. -/
def encodeVerts : List FProcMeshVertex → List Scalar
  | [] => []
  | v :: t => serializeVertex v ++ encodeVerts t

/-- FProcMeshSection::SerializeMesh, written against an FBufferArchive modelled
as the list of scalars appended so far.  Mirrors the write order of the source:
vertex count, Min corner, Max corner, per-vertex fields, index count, indices. -/
def FProcMeshSection.SerializeMesh (s : FProcMeshSection) (binaryData : List Scalar) :
    List Scalar :=
  let bin := binaryData ++ [(s.ProcVertexBuffer.length : Int)]
  let bin := bin ++ [s.SectionLocalBox.Min.X, s.SectionLocalBox.Min.Y, s.SectionLocalBox.Min.Z]
  let bin := bin ++ [s.SectionLocalBox.Max.X, s.SectionLocalBox.Max.Y, s.SectionLocalBox.Max.Z]
  let bin := s.ProcVertexBuffer.foldl (fun b v => b ++ serializeVertex v) bin
  let bin := bin ++ [(s.ProcIndexBuffer.length : Int)]
  s.ProcIndexBuffer.foldl (fun b i => b ++ [i]) bin

/-- FMemoryReader, modelled by its remaining stream and the ArIsError flag.
The engine reader keeps a fixed buffer and an offset; remaining stream equals
the part after the offset, so the two views are observably the same. -/
structure FMemoryReader where
  data : List Scalar
  ArIsError : Bool
deriving DecidableEq

/-- A reader positioned at the start of a stream, no error. -/
def FMemoryReader.ofList (d : List Scalar) : FMemoryReader := ⟨d, false⟩

/-- One operator<< read of a 4-byte scalar through FMemoryReader::Serialize:
a no-op once the error flag is set; otherwise take the next scalar, or set the
error flag when the stream is exhausted.  The 0 returned on failure stands for
the indeterminate value of the untouched destination. -/
def FMemoryReader.readScalar (r : FMemoryReader) : Scalar × FMemoryReader :=
  if r.ArIsError then (0, r)
  else
    match r.data with
    | [] => (0, ⟨[], true⟩)
    | x :: xs => (x, ⟨xs, false⟩)

/-- The vertex loop of DeserializeMesh: n iterations, each reading the seven
vertex fields and calling AddVertex. -/
def readVertexLoop : Nat → FProcMeshSection → FMemoryReader →
    FProcMeshSection × FMemoryReader
  | 0, s, r => (s, r)
  | n + 1, s, r =>
    let (px, r) := r.readScalar
    let (py, r) := r.readScalar
    let (pz, r) := r.readScalar
    let (nx, r) := r.readScalar
    let (ny, r) := r.readScalar
    let (nz, r) := r.readScalar
    let (mi, r) := r.readScalar
    readVertexLoop n (s.AddVertex ⟨px, py, pz, nx, ny, nz, mi⟩) r

/-- The index loop of DeserializeMesh: n iterations, each reading one index
and appending it to ProcIndexBuffer. -/
def readIndexLoop : Nat → FProcMeshSection → FMemoryReader →
    FProcMeshSection × FMemoryReader
  | 0, s, r => (s, r)
  | n + 1, s, r =>
    let (i, r) := r.readScalar
    readIndexLoop n (s.AddIndex i) r

/-- FProcMeshSection::DeserializeMesh.  Reads the vertex count, the six box
scalars (Min then Max, into locals that are never used afterwards), replays
VertexNum vertices through AddVertex, then reads the index count and appends
IndexNum indices.  The loop bound int Idx = 0; Idx < VertexNum runs zero times
for a negative count, modelled by Int.toNat. -/
def FProcMeshSection.DeserializeMesh (s : FProcMeshSection) (r : FMemoryReader) :
    FProcMeshSection × FMemoryReader :=
  let (vertexNum, r) := r.readScalar
  let (_minX, r) := r.readScalar
  let (_minY, r) := r.readScalar
  let (_minZ, r) := r.readScalar
  let (_maxX, r) := r.readScalar
  let (_maxY, r) := r.readScalar
  let (_maxZ, r) := r.readScalar
  let (s, r) := readVertexLoop vertexNum.toNat s r
  let (indexNum, r) := r.readScalar
  readIndexLoop indexNum.toNat s r

/-- Modelled from the spec: FastUnsafeDeserializer is declared in
serialization.hpp, which is not under src/; only its caller DeserializeMeshFast
is.  Per the spec it is a readable byte cursor whose readObj reads one scalar
and whose read(ptr, n) bulk-copies n fixed-size records with no per-field
interpretation and no bounds checking; the caller guarantees the buffer holds
the bytes implied by the counts.  We model the cursor by its remaining scalar
stream; a read past the end yields 0, a case the theorems below never reach
because they supply sufficient buffers, as the contract requires. -/
structure FastUnsafeDeserializer where
  data : List Scalar
deriving DecidableEq

/-- A fast cursor positioned at the start of a stream. -/
def FastUnsafeDeserializer.ofList (d : List Scalar) : FastUnsafeDeserializer := ⟨d⟩

/-- FastUnsafeDeserializer::readObj on an int32, and one element of a
read(ptr, n) float copy: take the next scalar and advance. -/
def FastUnsafeDeserializer.readObj (d : FastUnsafeDeserializer) :
    Scalar × FastUnsafeDeserializer :=
  (d.data.headD 0, ⟨d.data.tail⟩)

/-- Deserializer.read(&A[0], 3): copy three consecutive floats. -/
def FastUnsafeDeserializer.readVec3 (d : FastUnsafeDeserializer) :
    FVector × FastUnsafeDeserializer :=
  let (a, d) := d.readObj
  let (b, d) := d.readObj
  let (c, d) := d.readObj
  (⟨a, b, c⟩, d)

/-- Deserializer.read(ProcVertexBuffer.GetData(), VertexNum): the bulk copy of
n vertex records.  One FProcMeshVertex record is 7 consecutive 4-byte scalars
(6 floats then an int32, no padding), so the copy consumes the next 7n scalars
split into records in field order. -/
def readVertexRecords : Nat → FastUnsafeDeserializer →
    List FProcMeshVertex × FastUnsafeDeserializer
  | 0, d => ([], d)
  | n + 1, d =>
    let (px, d) := d.readObj
    let (py, d) := d.readObj
    let (pz, d) := d.readObj
    let (nx, d) := d.readObj
    let (ny, d) := d.readObj
    let (nz, d) := d.readObj
    let (mi, d) := d.readObj
    let (vt, d) := readVertexRecords n d
    (⟨px, py, pz, nx, ny, nz, mi⟩ :: vt, d)

/-- Deserializer.read(ProcIndexBuffer.GetData(), IndexNum): the bulk copy of
n int32 records. -/
def readIndexRecords : Nat → FastUnsafeDeserializer →
    List Scalar × FastUnsafeDeserializer
  | 0, d => ([], d)
  | n + 1, d =>
    let (i, d) := d.readObj
    let (it, d) := readIndexRecords n d
    (i :: it, d)

/-- FProcMeshSection::DeserializeMeshFast.  Reads the vertex count and the
persisted Min and Max corners, resizes the vertex buffer to VertexNum and bulk
reads it, does the same for the index buffer, and finally installs
FBox(Min, Max) as SectionLocalBox verbatim; the FBox(FVector, FVector)
constructor sets IsValid = 1. -/
def FProcMeshSection.DeserializeMeshFast (_ : FProcMeshSection)
    (d : FastUnsafeDeserializer) : FProcMeshSection × FastUnsafeDeserializer :=
  let (vertexNum, d) := d.readObj
  let (mn, d) := d.readVec3
  let (mx, d) := d.readVec3
  let (vs, d) := readVertexRecords vertexNum.toNat d
  let (indexNum, d) := d.readObj
  let (is, d) := readIndexRecords indexNum.toNat d
  (⟨vs, is, ⟨mn, mx, true⟩⟩, d)

/-- The decode error kinds the spec assigns to the safe path. -/
inductive DecodeError where
  | TruncatedInput
  | InvalidCount
  | IndexOutOfRange
deriving DecidableEq

/-- Take one scalar from the stream or fail with TruncatedInput. -/
def takeScalar : List Scalar → Except DecodeError (Scalar × List Scalar)
  | [] => .error .TruncatedInput
  | x :: xs => .ok (x, xs)

/-- The vertex loop of the hardened safe decoder: n iterations, each reading
the seven vertex fields and replaying them through AddVertex. -/
def readVertexLoopH : Nat → FProcMeshSection → List Scalar →
    Except DecodeError (FProcMeshSection × List Scalar)
  | 0, s, bytes => .ok (s, bytes)
  | n + 1, s, bytes => do
    let (px, bytes) ← takeScalar bytes
    let (py, bytes) ← takeScalar bytes
    let (pz, bytes) ← takeScalar bytes
    let (nx, bytes) ← takeScalar bytes
    let (ny, bytes) ← takeScalar bytes
    let (nz, bytes) ← takeScalar bytes
    let (mi, bytes) ← takeScalar bytes
    readVertexLoopH n (s.AddVertex ⟨px, py, pz, nx, ny, nz, mi⟩) bytes

/-- The index loop of the hardened safe decoder: n iterations, each reading one
index, checking it against [0, vertexCount), and appending it. -/
def readIndexLoopH (vertexCount : Int) : Nat → FProcMeshSection → List Scalar →
    Except DecodeError (FProcMeshSection × List Scalar)
  | 0, s, bytes => .ok (s, bytes)
  | n + 1, s, bytes => do
    let (i, bytes) ← takeScalar bytes
    if i < 0 ∨ vertexCount ≤ i then
      .error .IndexOutOfRange
    else
      readIndexLoopH vertexCount n (s.AddIndex i) bytes

/-- Modelled from the spec: the hardened safe decoder.  The legacy
DeserializeMesh surfaces no errors; the spec REQUIRES a faithful safe
reimplementation to read the same fields in the same order and fail with
TruncatedInput when the stream ends before the fields implied by the counts,
with InvalidCount when a decoded count is negative, and with IndexOutOfRange
when an index value lies outside [0, vertexCount); the persisted box is
consumed and the box rebuilt by AddVertex replay into a fresh section. -/
def deserializeMeshHardened (bytes : List Scalar) :
    Except DecodeError FProcMeshSection := do
  let (vertexNum, bytes) ← takeScalar bytes
  if vertexNum < 0 then
    .error .InvalidCount
  else do
    let (_minX, bytes) ← takeScalar bytes
    let (_minY, bytes) ← takeScalar bytes
    let (_minZ, bytes) ← takeScalar bytes
    let (_maxX, bytes) ← takeScalar bytes
    let (_maxY, bytes) ← takeScalar bytes
    let (_maxZ, bytes) ← takeScalar bytes
    let (s, bytes) ← readVertexLoopH vertexNum.toNat FProcMeshSection.fresh bytes
    let (indexNum, bytes) ← takeScalar bytes
    if indexNum < 0 then
      .error .InvalidCount
    else do
      let (s, _) ← readIndexLoopH vertexNum indexNum.toNat s bytes
      pure s

/-! Helper lemmas shared by the claim theorems. -/

theorem encodeVerts_length (vs : List FProcMeshVertex) :
    (encodeVerts vs).length = 7 * vs.length := by
  induction vs with
  | nil => rfl
  | cons v t ih =>
    simp only [encodeVerts, serializeVertex, List.length_append, List.length_cons,
      List.length_nil, ih]
    omega

theorem foldl_serializeVertex (vs : List FProcMeshVertex) (bin : List Scalar) :
    vs.foldl (fun b v => b ++ serializeVertex v) bin = bin ++ encodeVerts vs := by
  induction vs generalizing bin with
  | nil => simp [encodeVerts]
  | cons v t ih => simp [encodeVerts, ih, List.append_assoc]

theorem foldl_appendScalar (is : List Scalar) (bin : List Scalar) :
    is.foldl (fun b i => b ++ [i]) bin = bin ++ is := by
  induction is generalizing bin with
  | nil => simp
  | cons i t ih => simp [ih]

/-- Closed form of SerializeMesh: the stream is the vertex count, the six box
scalars Min before Max, the per-vertex fields in buffer order, the index count
and the indices in buffer order. -/
theorem serializeMesh_closed (s : FProcMeshSection) (bin : List Scalar) :
    s.SerializeMesh bin =
      bin ++ (s.ProcVertexBuffer.length : Int) ::
        s.SectionLocalBox.Min.X :: s.SectionLocalBox.Min.Y :: s.SectionLocalBox.Min.Z ::
        s.SectionLocalBox.Max.X :: s.SectionLocalBox.Max.Y :: s.SectionLocalBox.Max.Z ::
        (encodeVerts s.ProcVertexBuffer ++
          (s.ProcIndexBuffer.length : Int) :: s.ProcIndexBuffer) := by
  simp [FProcMeshSection.SerializeMesh, foldl_serializeVertex, foldl_appendScalar]

theorem foldl_addVertex_decompose (vs : List FProcMeshVertex) (s : FProcMeshSection) :
    vs.foldl FProcMeshSection.AddVertex s =
      ⟨s.ProcVertexBuffer ++ vs, s.ProcIndexBuffer,
        (vs.map FProcMeshVertex.pos).foldl FBox.addPoint s.SectionLocalBox⟩ := by
  induction vs generalizing s with
  | nil => simp
  | cons v t ih => simp [ih, FProcMeshSection.AddVertex]

theorem foldl_addIndex_decompose (is : List Scalar) (s : FProcMeshSection) :
    is.foldl FProcMeshSection.AddIndex s =
      ⟨s.ProcVertexBuffer, s.ProcIndexBuffer ++ is, s.SectionLocalBox⟩ := by
  induction is generalizing s with
  | nil => simp
  | cons i t ih => simp [ih, FProcMeshSection.AddIndex]

theorem readScalar_cons (x : Scalar) (xs : List Scalar) :
    (FMemoryReader.mk (x :: xs) false).readScalar = (x, ⟨xs, false⟩) := rfl

theorem readVertexLoop_replay (vs : List FProcMeshVertex) (s : FProcMeshSection)
    (rest : List Scalar) :
    readVertexLoop vs.length s ⟨encodeVerts vs ++ rest, false⟩ =
      (vs.foldl FProcMeshSection.AddVertex s, ⟨rest, false⟩) := by
  induction vs generalizing s with
  | nil => rfl
  | cons v t ih =>
    show readVertexLoop (t.length + 1) s ⟨serializeVertex v ++ encodeVerts t ++ rest, false⟩ = _
    simp only [readVertexLoop, serializeVertex, List.cons_append, readScalar_cons,
      List.nil_append]
    exact ih (s.AddVertex v)

theorem readIndexLoop_replay (is : List Scalar) (s : FProcMeshSection)
    (rest : List Scalar) :
    readIndexLoop is.length s ⟨is ++ rest, false⟩ =
      (is.foldl FProcMeshSection.AddIndex s, ⟨rest, false⟩) := by
  induction is generalizing s with
  | nil => rfl
  | cons i t ih =>
    show readIndexLoop (t.length + 1) s ⟨i :: (t ++ rest), false⟩ = _
    simp only [readIndexLoop, readScalar_cons]
    exact ih (s.AddIndex i)

theorem readIndexLoop_replay_nil (is : List Scalar) (s : FProcMeshSection) :
    readIndexLoop is.length s ⟨is, false⟩ =
      (is.foldl FProcMeshSection.AddIndex s, ⟨[], false⟩) := by
  simpa using readIndexLoop_replay is s []

/-- DeserializeMesh on a stream of serialized shape: every decoded vertex is
appended through AddVertex after the existing content, every decoded index is
appended after the existing indices, the persisted box scalars are consumed
and discarded, and the reader ends cleanly at the end of the stream. -/
theorem deserializeMesh_stream (s0 : FProcMeshSection) (vs : List FProcMeshVertex)
    (is : List Scalar) (b1 b2 b3 b4 b5 b6 : Scalar) :
    s0.DeserializeMesh (FMemoryReader.ofList
        ((vs.length : Int) :: b1 :: b2 :: b3 :: b4 :: b5 :: b6 ::
          (encodeVerts vs ++ (is.length : Int) :: is))) =
      (⟨s0.ProcVertexBuffer ++ vs, s0.ProcIndexBuffer ++ is,
        (vs.map FProcMeshVertex.pos).foldl FBox.addPoint s0.SectionLocalBox⟩,
       ⟨[], false⟩) := by
  simp only [FProcMeshSection.DeserializeMesh, FMemoryReader.ofList, readScalar_cons,
    Int.toNat_natCast, readVertexLoop_replay, readIndexLoop_replay_nil,
    foldl_addVertex_decompose, foldl_addIndex_decompose]

theorem foldl_applyOp_decompose (ops : List BuildOp) (s : FProcMeshSection) :
    ops.foldl applyOp s =
      ⟨s.ProcVertexBuffer ++ vertsOf ops, s.ProcIndexBuffer ++ indsOf ops,
        ((vertsOf ops).map FProcMeshVertex.pos).foldl FBox.addPoint s.SectionLocalBox⟩ := by
  induction ops generalizing s with
  | nil => simp [vertsOf, indsOf]
  | cons op t ih =>
    cases op with
    | addV v => simp [applyOp, vertsOf, indsOf, ih, FProcMeshSection.AddVertex]
    | addI i => simp [applyOp, vertsOf, indsOf, ih, FProcMeshSection.AddIndex]

/-- Any build sequence produces exactly its vertices, its indices, and the box
replayed from its vertices. -/
theorem buildSection_decompose (ops : List BuildOp) :
    buildSection ops = ⟨vertsOf ops, indsOf ops, boxOfVerts (vertsOf ops)⟩ := by
  simp [buildSection, foldl_applyOp_decompose, FProcMeshSection.fresh, boxOfVerts]

theorem fast_readObj_cons (x : Scalar) (xs : List Scalar) :
    (FastUnsafeDeserializer.mk (x :: xs)).readObj = (x, ⟨xs⟩) := rfl

theorem readVertexRecords_replay (vs : List FProcMeshVertex) (rest : List Scalar) :
    readVertexRecords vs.length ⟨encodeVerts vs ++ rest⟩ = (vs, ⟨rest⟩) := by
  induction vs with
  | nil => rfl
  | cons v t ih =>
    show readVertexRecords (t.length + 1) ⟨serializeVertex v ++ encodeVerts t ++ rest⟩ = _
    simp only [readVertexRecords, serializeVertex, List.cons_append, fast_readObj_cons,
      List.nil_append, ih]

theorem readIndexRecords_replay (is : List Scalar) (rest : List Scalar) :
    readIndexRecords is.length ⟨is ++ rest⟩ = (is, ⟨rest⟩) := by
  induction is with
  | nil => rfl
  | cons i t ih =>
    show readIndexRecords (t.length + 1) ⟨i :: (t ++ rest)⟩ = _
    simp only [readIndexRecords, fast_readObj_cons, ih]

/-- DeserializeMeshFast on a stream of serialized shape: the buffers are bulk
copies of the per-vertex and per-index regions, and the persisted corners are
installed verbatim as the box with IsValid set. -/
theorem deserializeMeshFast_stream (s0 : FProcMeshSection) (vs : List FProcMeshVertex)
    (is : List Scalar) (b1 b2 b3 b4 b5 b6 : Scalar) :
    s0.DeserializeMeshFast (FastUnsafeDeserializer.ofList
        ((vs.length : Int) :: b1 :: b2 :: b3 :: b4 :: b5 :: b6 ::
          (encodeVerts vs ++ (is.length : Int) :: is))) =
      (⟨vs, is, ⟨⟨b1, b2, b3⟩, ⟨b4, b5, b6⟩, true⟩⟩, ⟨[]⟩) := by
  have hnil : readIndexRecords is.length ⟨is⟩ = (is, ⟨[]⟩) := by
    simpa using readIndexRecords_replay is []
  simp only [FProcMeshSection.DeserializeMeshFast, FastUnsafeDeserializer.ofList,
    FastUnsafeDeserializer.readVec3, fast_readObj_cons, Int.toNat_natCast,
    readVertexRecords_replay, hnil]

/-- Componentwise minimum of a nonempty list of scalars, 0 on the empty list. -/
def listMinD : List Scalar → Scalar
  | [] => 0
  | x :: t => t.foldl min x

/-- Componentwise maximum of a nonempty list of scalars, 0 on the empty list. -/
def listMaxD : List Scalar → Scalar
  | [] => 0
  | x :: t => t.foldl max x

theorem foldl_addPoint_valid (ps : List FVector) (mn mx : FVector) :
    ps.foldl FBox.addPoint ⟨mn, mx, true⟩ =
      ⟨⟨(ps.map FVector.X).foldl min mn.X, (ps.map FVector.Y).foldl min mn.Y,
        (ps.map FVector.Z).foldl min mn.Z⟩,
       ⟨(ps.map FVector.X).foldl max mx.X, (ps.map FVector.Y).foldl max mx.Y,
        (ps.map FVector.Z).foldl max mx.Z⟩,
       true⟩ := by
  induction ps generalizing mn mx with
  | nil => rfl
  | cons p t ih =>
    simp only [List.foldl_cons, List.map_cons, FBox.addPoint, if_pos]
    exact ih ⟨min mn.X p.X, min mn.Y p.Y, min mn.Z p.Z⟩ ⟨max mx.X p.X, max mx.Y p.Y, max mx.Z p.Z⟩

/-- The replayed box of a nonempty vertex list is the tight componentwise
bound of the inserted positions, with IsValid set. -/
theorem boxOfVerts_tight (v : FProcMeshVertex) (vs : List FProcMeshVertex) :
    boxOfVerts (v :: vs) =
      ⟨⟨listMinD ((v :: vs).map FProcMeshVertex.PositionX),
        listMinD ((v :: vs).map FProcMeshVertex.PositionY),
        listMinD ((v :: vs).map FProcMeshVertex.PositionZ)⟩,
       ⟨listMaxD ((v :: vs).map FProcMeshVertex.PositionX),
        listMaxD ((v :: vs).map FProcMeshVertex.PositionY),
        listMaxD ((v :: vs).map FProcMeshVertex.PositionZ)⟩,
       true⟩ := by
  have h0 : FBox.addPoint FBox.forceInitToZero ⟨v.PositionX, v.PositionY, v.PositionZ⟩ =
      ⟨⟨v.PositionX, v.PositionY, v.PositionZ⟩, ⟨v.PositionX, v.PositionY, v.PositionZ⟩,
        true⟩ := rfl
  simp only [boxOfVerts, List.map_cons, List.foldl_cons, h0, foldl_addPoint_valid,
    listMinD, listMaxD, List.map_map,
    show FVector.X ∘ FProcMeshVertex.pos = FProcMeshVertex.PositionX from rfl,
    show FVector.Y ∘ FProcMeshVertex.pos = FProcMeshVertex.PositionY from rfl,
    show FVector.Z ∘ FProcMeshVertex.pos = FProcMeshVertex.PositionZ from rfl,
    FProcMeshVertex.pos]

theorem takeScalar_cons (x : Scalar) (xs : List Scalar) :
    takeScalar (x :: xs) = .ok (x, xs) := rfl

theorem except_ok_bind {ε α β : Type} (a : α) (f : α → Except ε β) :
    (Except.ok a >>= f) = f a := rfl

theorem readVertexLoopH_replay (vs : List FProcMeshVertex) (s : FProcMeshSection)
    (rest : List Scalar) :
    readVertexLoopH vs.length s (encodeVerts vs ++ rest) =
      .ok (vs.foldl FProcMeshSection.AddVertex s, rest) := by
  induction vs generalizing s with
  | nil => rfl
  | cons v t ih =>
    show readVertexLoopH (t.length + 1) s (serializeVertex v ++ encodeVerts t ++ rest) = _
    simp only [readVertexLoopH, serializeVertex, List.cons_append, takeScalar_cons,
      List.nil_append, except_ok_bind, List.foldl_cons]
    exact ih (s.AddVertex v)

theorem readIndexLoopH_bad (is : List Scalar) (vc : Int) (s : FProcMeshSection)
    (rest : List Scalar) (h : ∃ i ∈ is, i < 0 ∨ vc ≤ i) :
    readIndexLoopH vc is.length s (is ++ rest) = .error .IndexOutOfRange := by
  induction is generalizing s with
  | nil => simp at h
  | cons i t ih =>
    show readIndexLoopH vc (t.length + 1) s (i :: (t ++ rest)) = _
    simp only [readIndexLoopH, takeScalar_cons, except_ok_bind]
    by_cases hc : i < 0 ∨ vc ≤ i
    · simp [hc]
    · simp only [if_neg hc]
      apply ih
      rcases h with ⟨j, hj, hbad⟩
      rcases List.mem_cons.mp hj with rfl | hjt
      · exact absurd hbad hc
      · exact ⟨j, hjt, hbad⟩

theorem readIndexLoopH_good (is : List Scalar) (vc : Int) (s : FProcMeshSection)
    (rest : List Scalar) (h : ∀ i ∈ is, 0 ≤ i ∧ i < vc) :
    readIndexLoopH vc is.length s (is ++ rest) =
      .ok (is.foldl FProcMeshSection.AddIndex s, rest) := by
  induction is generalizing s with
  | nil => rfl
  | cons i t ih =>
    show readIndexLoopH vc (t.length + 1) s (i :: (t ++ rest)) = _
    have hi := h i (List.mem_cons_self i t)
    have hcond : ¬(i < 0 ∨ vc ≤ i) := by
      push_neg
      exact ⟨le_of_not_lt (not_lt.mpr hi.1), hi.2⟩
    simp only [readIndexLoopH, takeScalar_cons, except_ok_bind, if_neg hcond,
      List.foldl_cons]
    exact ih (s.AddIndex i) (fun j hj => h j (List.mem_cons_of_mem i hj))

theorem except_error_bind {ε α β : Type} (e : ε) (f : α → Except ε β) :
    (Except.error e >>= f) = .error e := rfl

/-! Claim theorems. -/

/-- C1: for every MeshSection built by any sequence of AddVertex calls and
index appends, decoding the stream produced by SerializeMesh with
DeserializeMesh into a fresh section returns exactly the original section:
equal vertex buffer, equal index buffer and equal bounding box, every scalar
field copied without loss, with the reader cleanly at the end of the stream. -/
theorem serialize_deserialize_roundtrip (ops : List BuildOp) :
    FProcMeshSection.fresh.DeserializeMesh
        (FMemoryReader.ofList ((buildSection ops).SerializeMesh [])) =
      (buildSection ops, ⟨[], false⟩) := by
  rw [buildSection_decompose, serializeMesh_closed]
  simp only [List.nil_append]
  rw [deserializeMesh_stream]
  simp [FProcMeshSection.fresh, boxOfVerts]

/-- C2: on any stream of serialized shape the safe decoder consumes the six
persisted box scalars but discards them, rebuilding the box by AddVertex
replay of the decoded vertices, while the fast decoder installs the persisted
corners verbatim with IsValid set; hence when the persisted box disagrees with
the tight bound of the vertices the safe decoder returns the tight bound and
the fast decoder returns the persisted box. -/
theorem safe_rebuilds_box_fast_trusts_box (vs : List FProcMeshVertex)
    (is : List Scalar) (b1 b2 b3 b4 b5 b6 : Scalar) :
    ((FProcMeshSection.fresh.DeserializeMesh (FMemoryReader.ofList
        ((vs.length : Int) :: b1 :: b2 :: b3 :: b4 :: b5 :: b6 ::
          (encodeVerts vs ++ (is.length : Int) :: is)))).1.SectionLocalBox =
      boxOfVerts vs)
    ∧ ((FProcMeshSection.fresh.DeserializeMeshFast (FastUnsafeDeserializer.ofList
        ((vs.length : Int) :: b1 :: b2 :: b3 :: b4 :: b5 :: b6 ::
          (encodeVerts vs ++ (is.length : Int) :: is)))).1.SectionLocalBox =
      ⟨⟨b1, b2, b3⟩, ⟨b4, b5, b6⟩, true⟩)
    ∧ (vs ≠ [] →
      (FProcMeshSection.fresh.DeserializeMesh (FMemoryReader.ofList
        ((vs.length : Int) :: b1 :: b2 :: b3 :: b4 :: b5 :: b6 ::
          (encodeVerts vs ++ (is.length : Int) :: is)))).1.SectionLocalBox =
      ⟨⟨listMinD (vs.map FProcMeshVertex.PositionX),
        listMinD (vs.map FProcMeshVertex.PositionY),
        listMinD (vs.map FProcMeshVertex.PositionZ)⟩,
       ⟨listMaxD (vs.map FProcMeshVertex.PositionX),
        listMaxD (vs.map FProcMeshVertex.PositionY),
        listMaxD (vs.map FProcMeshVertex.PositionZ)⟩,
       true⟩) := by
  refine ⟨?_, ?_, ?_⟩
  · rw [deserializeMesh_stream]
    simp [FProcMeshSection.fresh, boxOfVerts]
  · rw [deserializeMeshFast_stream]
  · intro hne
    obtain ⟨v, t, hvt⟩ := List.exists_cons_of_ne_nil hne
    subst hvt
    rw [deserializeMesh_stream]
    have : ((v :: t).map FProcMeshVertex.pos).foldl FBox.addPoint
        FProcMeshSection.fresh.SectionLocalBox = boxOfVerts (v :: t) := rfl
    simp only [this, boxOfVerts_tight]

/-- C2 witness: three concrete vertices with positions (1,0,0), (-1,5,0),
(0,0,-2) and a deliberately wrong persisted box with corners (9,9,9) and
(10,10,10): the safe decoder returns the tight bound, min (-1,0,-2) and
max (1,5,0), while the fast decoder reproduces the wrong persisted box. -/
theorem safe_rebuilds_box_fast_trusts_box_witness :
    (([⟨1, 0, 0, 0, 0, 0, 0⟩, ⟨-1, 5, 0, 0, 0, 0, 0⟩, ⟨0, 0, -2, 0, 0, 0, 0⟩] :
        List FProcMeshVertex) ≠ [])
    ∧ ((FProcMeshSection.fresh.DeserializeMesh (FMemoryReader.ofList
        ((3 : Int) :: 9 :: 9 :: 9 :: 10 :: 10 :: 10 ::
          (encodeVerts [⟨1, 0, 0, 0, 0, 0, 0⟩, ⟨-1, 5, 0, 0, 0, 0, 0⟩,
            ⟨0, 0, -2, 0, 0, 0, 0⟩] ++ (0 : Int) :: [])))).1.SectionLocalBox =
      ⟨⟨-1, 0, -2⟩, ⟨1, 5, 0⟩, true⟩)
    ∧ ((FProcMeshSection.fresh.DeserializeMeshFast (FastUnsafeDeserializer.ofList
        ((3 : Int) :: 9 :: 9 :: 9 :: 10 :: 10 :: 10 ::
          (encodeVerts [⟨1, 0, 0, 0, 0, 0, 0⟩, ⟨-1, 5, 0, 0, 0, 0, 0⟩,
            ⟨0, 0, -2, 0, 0, 0, 0⟩] ++ (0 : Int) :: [])))).1.SectionLocalBox =
      ⟨⟨9, 9, 9⟩, ⟨10, 10, 10⟩, true⟩) := by
  have h := safe_rebuilds_box_fast_trusts_box
    [⟨1, 0, 0, 0, 0, 0, 0⟩, ⟨-1, 5, 0, 0, 0, 0, 0⟩, ⟨0, 0, -2, 0, 0, 0, 0⟩] []
    9 9 9 10 10 10
  exact ⟨by decide, (h.2.2 (by decide)).trans (by decide), h.2.1⟩

/-- C3 counterexample: encode a section with two vertices, truncate the stream
before the MatIdx field of the last vertex (20 of the 22 scalars), and run the
safe decoder.  The claim says decode fails with TruncatedInput and never
returns a partially populated section; instead DeserializeMesh, which has no
error result at all, runs to completion, still calls AddVertex for the vertex
whose field read failed, and returns a section holding both vertices while
only the reader error flag of the engine archive records the overrun. -/
theorem truncatedInput_counterexample :
    ((FProcMeshSection.fresh.DeserializeMesh (FMemoryReader.ofList
        (((buildSection [.addV ⟨1, 2, 3, 4, 5, 6, 7⟩,
            .addV ⟨8, 9, 10, 11, 12, 13, 14⟩]).SerializeMesh []).take 20))).1.ProcVertexBuffer.length = 2)
    ∧ ((FProcMeshSection.fresh.DeserializeMesh (FMemoryReader.ofList
        (((buildSection [.addV ⟨1, 2, 3, 4, 5, 6, 7⟩,
            .addV ⟨8, 9, 10, 11, 12, 13, 14⟩]).SerializeMesh []).take 20))).2.ArIsError = true) := by
  decide

/-- C3 amended: on a two-vertex encoding truncated before the MatIdx of the
last vertex, the legacy safe decoder surfaces no error value: it completes,
returns a section with both vertices appended (the failed field read leaves
the destination indeterminate), and the truncation is recorded only in the
ArIsError flag of the underlying reader. -/
theorem truncated_decode_completes (v1 v2 : FProcMeshVertex) :
    ((FProcMeshSection.fresh.DeserializeMesh (FMemoryReader.ofList
        (((buildSection [.addV v1, .addV v2]).SerializeMesh []).take 20))).1.ProcVertexBuffer.length = 2)
    ∧ ((FProcMeshSection.fresh.DeserializeMesh (FMemoryReader.ofList
        (((buildSection [.addV v1, .addV v2]).SerializeMesh []).take 20))).2.ArIsError = true) :=
  ⟨rfl, rfl⟩

/-- C4 counterexample: a stream whose vertex count and index count are both
the negative value -1 (with six zero box scalars between them).  The claim
says the safe decode fails with InvalidCount, surfaced immediately, and
aborts; instead DeserializeMesh runs the vertex loop zero times, continues
past the negative count to read the box and the index count, runs the index
loop zero times, and returns a clean untouched section with no error
indication of any kind. -/
theorem invalidCount_counterexample :
    FProcMeshSection.fresh.DeserializeMesh
        (FMemoryReader.ofList [-1, 0, 0, 0, 0, 0, 0, -1]) =
      (FProcMeshSection.fresh, ⟨[], false⟩) := by
  decide

/-- C4 amended: a negative decoded count makes the corresponding loop of
DeserializeMesh run zero times; no error is surfaced, decoding is not
aborted, and the section is returned unchanged with the reader error flag
clear. -/
theorem negative_count_skips_loops (n m : Int) (hn : n < 0) (hm : m < 0)
    (b1 b2 b3 b4 b5 b6 : Scalar) :
    FProcMeshSection.fresh.DeserializeMesh
        (FMemoryReader.ofList [n, b1, b2, b3, b4, b5, b6, m]) =
      (FProcMeshSection.fresh, ⟨[], false⟩) := by
  have h1 : n.toNat = 0 := Int.toNat_of_nonpos hn.le
  have h2 : m.toNat = 0 := Int.toNat_of_nonpos hm.le
  simp only [FProcMeshSection.DeserializeMesh, FMemoryReader.ofList, readScalar_cons,
    h1, h2, readVertexLoop, readIndexLoop]

/-- C4 witness: the amended theorem at counts -1 and -1 with zero box
scalars. -/
theorem negative_count_skips_loops_witness :
    ((-1 : Int) < 0)
    ∧ (FProcMeshSection.fresh.DeserializeMesh
        (FMemoryReader.ofList [-1, 0, 0, 0, 0, 0, 0, -1]) =
      (FProcMeshSection.fresh, ⟨[], false⟩)) :=
  ⟨by decide, negative_count_skips_loops (-1) (-1) (by decide) (by decide) 0 0 0 0 0 0⟩

/-- C5: the hardened safe decoder of the spec, run on a stream of serialized
shape one of whose index values lies outside [0, vertexCount), fails with the
IndexOutOfRange decode error instead of accepting the index. -/
theorem hardened_rejects_out_of_range_index (vs : List FProcMeshVertex)
    (is : List Scalar) (b1 b2 b3 b4 b5 b6 : Scalar)
    (h : ∃ i ∈ is, i < 0 ∨ (vs.length : Int) ≤ i) :
    deserializeMeshHardened
        ((vs.length : Int) :: b1 :: b2 :: b3 :: b4 :: b5 :: b6 ::
          (encodeVerts vs ++ (is.length : Int) :: is)) =
      .error .IndexOutOfRange := by
  have hbad : readIndexLoopH (vs.length : Int) is.length
      (vs.foldl FProcMeshSection.AddVertex FProcMeshSection.fresh) is =
        .error .IndexOutOfRange := by
    have := readIndexLoopH_bad is (vs.length : Int)
      (vs.foldl FProcMeshSection.AddVertex FProcMeshSection.fresh) [] h
    simpa using this
  have hv : ¬((vs.length : Int) < 0) := not_lt.mpr (Int.natCast_nonneg vs.length)
  have hi : ¬((is.length : Int) < 0) := not_lt.mpr (Int.natCast_nonneg is.length)
  simp only [deserializeMeshHardened, takeScalar_cons, except_ok_bind, if_neg hv,
    if_neg hi, Int.toNat_natCast, readVertexLoopH_replay, hbad, except_error_bind]

/-- C5 witness: an empty vertex buffer with the single index 0, which is out
of range for vertexCount 0; the hardened decoder fails with
IndexOutOfRange. -/
theorem hardened_rejects_out_of_range_index_witness :
    (∃ i ∈ [(0 : Int)], i < 0 ∨ ((List.length ([] : List FProcMeshVertex)) : Int) ≤ i)
    ∧ (deserializeMeshHardened [0, 7, 7, 7, 8, 8, 8, 1, 0] =
      .error .IndexOutOfRange) :=
  ⟨by decide,
    hardened_rejects_out_of_range_index [] [0] 7 7 7 8 8 8 (by decide)⟩

/-- C6: after any build sequence from construction that inserts at least one
vertex, the min and max corners of SectionLocalBox are the componentwise
minimum and maximum of all inserted vertex positions, with IsValid set. -/
theorem addVertex_box_tight (ops : List BuildOp) (h : vertsOf ops ≠ []) :
    (buildSection ops).SectionLocalBox =
      ⟨⟨listMinD ((vertsOf ops).map FProcMeshVertex.PositionX),
        listMinD ((vertsOf ops).map FProcMeshVertex.PositionY),
        listMinD ((vertsOf ops).map FProcMeshVertex.PositionZ)⟩,
       ⟨listMaxD ((vertsOf ops).map FProcMeshVertex.PositionX),
        listMaxD ((vertsOf ops).map FProcMeshVertex.PositionY),
        listMaxD ((vertsOf ops).map FProcMeshVertex.PositionZ)⟩,
       true⟩ := by
  obtain ⟨v, t, hvt⟩ := List.exists_cons_of_ne_nil h
  rw [buildSection_decompose, hvt, boxOfVerts_tight]

/-- C6 witness: inserting positions (1,0,0), (-1,5,0), (0,0,-2) yields the box
with min (-1,0,-2) and max (1,5,0), as in the spec example. -/
theorem addVertex_box_tight_witness :
    (vertsOf [.addV ⟨1, 0, 0, 0, 0, 0, 0⟩, .addV ⟨-1, 5, 0, 0, 0, 0, 0⟩,
        .addV ⟨0, 0, -2, 0, 0, 0, 0⟩] ≠ [])
    ∧ ((buildSection [.addV ⟨1, 0, 0, 0, 0, 0, 0⟩, .addV ⟨-1, 5, 0, 0, 0, 0, 0⟩,
        .addV ⟨0, 0, -2, 0, 0, 0, 0⟩]).SectionLocalBox =
      ⟨⟨-1, 0, -2⟩, ⟨1, 5, 0⟩, true⟩) :=
  ⟨by decide,
    (addVertex_box_tight [.addV ⟨1, 0, 0, 0, 0, 0, 0⟩, .addV ⟨-1, 5, 0, 0, 0, 0, 0⟩,
        .addV ⟨0, 0, -2, 0, 0, 0, 0⟩] (by decide)).trans (by decide)⟩

/-- C7: on any stream produced by SerializeMesh, from any section whatsoever,
the fast decoder and the safe decoder produce equal vertex buffers and equal
index buffers; only the boxes may differ, per the box handling divergence. -/
theorem fast_safe_buffer_equivalence (s : FProcMeshSection) :
    ((FProcMeshSection.fresh.DeserializeMesh
        (FMemoryReader.ofList (s.SerializeMesh []))).1.ProcVertexBuffer =
      (FProcMeshSection.fresh.DeserializeMeshFast
        (FastUnsafeDeserializer.ofList (s.SerializeMesh []))).1.ProcVertexBuffer)
    ∧ ((FProcMeshSection.fresh.DeserializeMesh
        (FMemoryReader.ofList (s.SerializeMesh []))).1.ProcIndexBuffer =
      (FProcMeshSection.fresh.DeserializeMeshFast
        (FastUnsafeDeserializer.ofList (s.SerializeMesh []))).1.ProcIndexBuffer) := by
  rw [serializeMesh_closed]
  simp only [List.nil_append]
  rw [deserializeMesh_stream, deserializeMeshFast_stream]
  simp [FProcMeshSection.fresh]

/-- C8: SerializeMesh appends to the archive exactly the vertex count, then
min.x, min.y, min.z, max.x, max.y, max.z, then for each vertex in buffer
order the seven scalars position, normal, material index, then the index
count, then the indices in buffer order; consequently the stream length is
the fixed overhead of 8 scalars plus 7 scalars per vertex plus 1 per index,
fully determined by the two counts. -/
theorem serializeMesh_field_order_and_length (s : FProcMeshSection)
    (bin : List Scalar) :
    (s.SerializeMesh bin =
      bin ++ (s.ProcVertexBuffer.length : Int) ::
        s.SectionLocalBox.Min.X :: s.SectionLocalBox.Min.Y :: s.SectionLocalBox.Min.Z ::
        s.SectionLocalBox.Max.X :: s.SectionLocalBox.Max.Y :: s.SectionLocalBox.Max.Z ::
        (encodeVerts s.ProcVertexBuffer ++
          (s.ProcIndexBuffer.length : Int) :: s.ProcIndexBuffer))
    ∧ ((s.SerializeMesh bin).length =
      bin.length + (8 + 7 * s.ProcVertexBuffer.length + s.ProcIndexBuffer.length)) := by
  refine ⟨serializeMesh_closed s bin, ?_⟩
  rw [serializeMesh_closed]
  simp [encodeVerts_length]
  omega

/-- C9: Reset on any section, non-empty included, returns exactly the state of
a freshly constructed section: both buffers empty and the box in the canonical
empty state, so all further AddVertex and encode behaviour coincides. -/
theorem reset_equals_fresh (s : FProcMeshSection) :
    s.Reset = FProcMeshSection.fresh := rfl

/-- C10: DeserializeMesh does not clear the target section: decoding a
serialized-shape stream into an arbitrary pre-populated section appends the
decoded vertices after the existing ones, extends the existing bounding box
through the replayed AddVertex calls, and appends the decoded indices after
the existing ones. -/
theorem deserialize_appends_to_existing (s0 : FProcMeshSection)
    (vs : List FProcMeshVertex) (is : List Scalar) (b1 b2 b3 b4 b5 b6 : Scalar) :
    (s0.DeserializeMesh (FMemoryReader.ofList
        ((vs.length : Int) :: b1 :: b2 :: b3 :: b4 :: b5 :: b6 ::
          (encodeVerts vs ++ (is.length : Int) :: is)))).1 =
      ⟨s0.ProcVertexBuffer ++ vs, s0.ProcIndexBuffer ++ is,
        (vs.map FProcMeshVertex.pos).foldl FBox.addPoint s0.SectionLocalBox⟩ := by
  rw [deserializeMesh_stream]

end UnrealSandboxTerrain
